import Mathlib

/-
Verification of the match-aggregation, round-selection, data-loading and
sample-data-generation logic of the Boxing-stats-app repository.

Sources embedded:
  - app.py, calculate_match_aggregates (lines 30-50): pandas groupby over the
    Boxer column with per-group sums and a mean, derived accuracy ratios with a
    replace(0,1) guard, and Option-valued per-boxer row lookup.
  - app.py, the winner/draw announcement (lines 267-272), modelled as
    predict_outcome.
  - app.py, the round-selection branch of Individual Fight Analysis
    (lines 222-244), modelled as selectRounds / roundViewFor.
  - app.py, load_data (lines 124-143): required-column validation and
    zero-fill of missing optional columns.
  - generate_data.py, generate_boxing_data (lines 5-62), with the random
    draws abstracted as an explicit input stream.

Numeric modelling: pandas integer columns become Nat, the percentage columns
become Rat.  Decimal rounding (pandas .round(1) and Python round(x, 1)) is
modelled uniformly by round1 below; every statement proved here compares two
quantities rounded by the same function, so the half-way tie rule is
irrelevant to the results.
-/

/-- One row of the match CSV, as consumed by calculate_match_aggregates:
one record per (round, boxer) pair. -/
structure RoundRecord where
  round : Nat
  boxer : String
  punchesThrown : Nat
  punchesLanded : Nat
  sigPunchesThrown : Nat
  sigPunchesLanded : Nat
  headPunchesLanded : Nat
  bodyPunchesLanded : Nat
  ringControlPct : Rat
deriving DecidableEq

/-- One row of the aggregate table df_agg built by calculate_match_aggregates
(columns in the order selected at app.py lines 45-47). -/
structure BoxerAgg where
  boxer : String
  total_punches_thrown : Nat
  total_punches_landed : Nat
  punch_accuracy_pct : Rat
  total_sig_punches_thrown : Nat
  total_sig_punches_landed : Nat
  sig_punch_accuracy_pct : Rat
  total_head_punches_landed : Nat
  total_body_punches_landed : Nat
  avg_ring_control : Rat
deriving DecidableEq

/-- Rounding to one decimal place, modelling .round(1) on a Rat-valued
quantity. -/
def round1 (q : Rat) : Rat := ((round (10 * q) : Int) : Rat) / 10

/-- The Series.replace(0, 1) guard applied to the thrown-punch totals at
app.py lines 42-43. -/
def replaceZero (n : Nat) : Nat := if n = 0 then 1 else n

/-- The aggregate row computed for one groupby group g (the records of one
boxer): the six sums, the mean of Ring Control %, and the two derived
accuracy percentages of app.py lines 32-43. -/
def aggRow (bx : String) (g : List RoundRecord) : BoxerAgg :=
  let tt := (g.map RoundRecord.punchesThrown).sum
  let tl := (g.map RoundRecord.punchesLanded).sum
  let st := (g.map RoundRecord.sigPunchesThrown).sum
  let sl := (g.map RoundRecord.sigPunchesLanded).sum
  { boxer := bx
    total_punches_thrown := tt
    total_punches_landed := tl
    punch_accuracy_pct := round1 ((tl : Rat) * 100 / (replaceZero tt : Nat))
    total_sig_punches_thrown := st
    total_sig_punches_landed := sl
    sig_punch_accuracy_pct := round1 ((sl : Rat) * 100 / (replaceZero st : Nat))
    total_head_punches_landed := (g.map RoundRecord.headPunchesLanded).sum
    total_body_punches_landed := (g.map RoundRecord.bodyPunchesLanded).sum
    avg_ring_control := (g.map RoundRecord.ringControlPct).sum / (g.length : Rat) }

/-- The groupby keys: the distinct Boxer values of the input, in ascending
order (pandas groupby sorts its keys). -/
def boxerKeys (df : List RoundRecord) : List String :=
  List.insertionSort (fun x y => x ≤ y) (df.map RoundRecord.boxer).dedup

/-- The full aggregate table df_agg: one row per distinct boxer present in
the input. -/
def aggregateTable (df : List RoundRecord) : List BoxerAgg :=
  (boxerKeys df).map (fun bx => aggRow bx (df.filter (fun r => r.boxer = bx)))

/-- The model of calculate_match_aggregates (app.py lines 30-50): the row for
boxer a if present (None otherwise), the row for boxer b likewise, and the
full aggregate table. -/
def calculate_match_aggregates (df : List RoundRecord) (a b : String) :
    Option BoxerAgg × Option BoxerAgg × List BoxerAgg :=
  let t := aggregateTable df
  ((t.filter (fun row => row.boxer = a)).head?,
   (t.filter (fun row => row.boxer = b)).head?, t)

/-- The outcome announced at app.py lines 267-272: either a draw notice or a
winner-over-loser notice carrying the two boxer names. -/
inductive Outcome where
  | draw : Outcome
  | winner (w l : String) : Outcome
deriving DecidableEq

/-- The winner/loser computation and draw test of app.py lines 267-272,
verbatim: winner and loser are chosen by the strict comparison of
total_sig_punches_landed, and the draw branch fires exactly on equality. -/
def predict_outcome (sa sb : BoxerAgg) : Outcome :=
  let w := if sa.total_sig_punches_landed > sb.total_sig_punches_landed
           then sa.boxer else sb.boxer
  let l := if sa.total_sig_punches_landed > sb.total_sig_punches_landed
           then sb.boxer else sa.boxer
  if sa.total_sig_punches_landed = sb.total_sig_punches_landed then Outcome.draw
  else Outcome.winner w l

/-- The round filter of the sidebar: All Rounds is none, a specific round is
some r; a specific round keeps the rows whose Round column equals it
(app.py lines 222-223 and 236). -/
def selectRounds (df : List RoundRecord) (sel : Option Nat) : List RoundRecord :=
  match sel with
  | none => df
  | some r => df.filter (fun rec => rec.round = r)

/-- What the Round-by-Round Visualizations section renders (app.py lines
226-244): match trends for All Rounds, per-round charts over the round
subset when it is non-empty, and the No data available warning otherwise. -/
inductive RoundView where
  | trends : RoundView
  | roundCharts (data : List RoundRecord) : RoundView
  | noData (r : Nat) : RoundView
deriving DecidableEq

/-- The branch structure of app.py lines 226-244. -/
def roundViewFor (df : List RoundRecord) (sel : Option Nat) : RoundView :=
  match sel with
  | none => RoundView.trends
  | some r =>
      let d := df.filter (fun rec => rec.round = r)
      if d.isEmpty then RoundView.noData r else RoundView.roundCharts d

/-- One cell of a raw CSV table: a number or a string. -/
inductive Cell where
  | num (q : Rat) : Cell
  | str (s : String) : Cell
deriving DecidableEq

/-- A raw CSV table as read by pd.read_csv: a header naming the columns and
the data rows, each row aligned positionally with the header. -/
structure Csv where
  columns : List String
  rows : List (List Cell)
deriving DecidableEq

/-- The required_cols list of app.py line 129. -/
def required_cols : List String :=
  ["Round", "Boxer", "Punches Thrown", "Punches Landed",
   "Significant Punches Thrown", "Significant Punches Landed"]

/-- The optional_cols list of app.py line 130. -/
def optional_cols : List String :=
  ["Ring Control %", "Head Punches Landed", "Body Punches Landed",
   "Jabs Landed", "Power Punches Landed"]

/-- The error message of app.py line 132 (the file-path interpolation, which
our model does not track, is omitted). -/
def loadErrorMsg : String :=
  "CSV file missing required columns. Need at least: " ++
    String.intercalate ", " required_cols

/-- Boolean substring test: msgHas hay needle is true when needle occurs
contiguously inside hay. -/
def msgHas (hay needle : String) : Bool :=
  (List.range (hay.length + 1)).any
    (fun i => List.isPrefixOf needle.toList (hay.toList.drop i))

/-- The for-loop of app.py lines 134-136: every optional column absent from
the table is appended with value 0 on every row. -/
def fillZeroCols : List String → Csv → Csv
  | [], t => t
  | c :: cs, t =>
      if t.columns.contains c then fillZeroCols cs t
      else fillZeroCols cs
        { columns := t.columns ++ [c],
          rows := t.rows.map (fun row => row ++ [Cell.num 0]) }

/-- The schema-validation core of load_data (app.py lines 129-137): reject
the table with the descriptive error when a required column is missing,
otherwise zero-fill the missing optional columns and return the table.
File-system errors (lines 138-143) are outside this model. -/
def load_data (t : Csv) : Except String Csv :=
  if required_cols.all (fun c => t.columns.contains c)
  then Except.ok (fillZeroCols optional_cols t)
  else Except.error loadErrorMsg

/-- The per-row random draws consumed by generate_boxing_data, abstracted as
explicit inputs: randint(40, 80), randint(0.2t, 0.5t), randint(0.4t, 0.7t),
randint(0.5l, l), randint(0.4s, 0.8s) and uniform(30.0, 70.0) in source
order. -/
structure Draws where
  punchesThrown : Nat
  punchesLanded : Nat
  sigPunchesThrown : Nat
  sigPunchesLanded : Nat
  headLanded : Nat
  ringControlPct : Rat
deriving DecidableEq

/-- One row of the generated DataFrame (the dict appended at
generate_data.py lines 35-48). -/
structure GenRow where
  round : Nat
  boxer : String
  opponent : String
  punchesThrown : Nat
  punchesLanded : Nat
  sigPunchesThrown : Nat
  sigPunchesLanded : Nat
  headPunchesLanded : Nat
  bodyPunchesLanded : Nat
  jabsLanded : Nat
  powerPunchesLanded : Nat
  ringControlPct : Rat
deriving DecidableEq

/-- The body of the generation loop (generate_data.py lines 10-48) for one
(round, boxer) pair: clamp significant punches landed into
[thrown/10, thrown], split head/body, derive jabs and power punches with the
negative-jab fixup, and round ring control to one decimal. -/
def genRow (roundNum : Nat) (bx opp : String) (d : Draws) : GenRow :=
  let sl1 := if d.sigPunchesLanded > d.sigPunchesThrown
             then d.sigPunchesThrown else d.sigPunchesLanded
  let sigLanded := if sl1 < d.sigPunchesThrown / 10
                   then d.sigPunchesThrown / 10 else sl1
  let headLanded := d.headLanded
  let jabs0 : Int := (d.punchesLanded : Int) - (sigLanded : Int)
  { round := roundNum
    boxer := bx
    opponent := opp
    punchesThrown := d.punchesThrown
    punchesLanded := d.punchesLanded
    sigPunchesThrown := d.sigPunchesThrown
    sigPunchesLanded := sigLanded
    headPunchesLanded := headLanded
    bodyPunchesLanded := sigLanded - headLanded
    jabsLanded := if jabs0 < 0 then 0 else jabs0.toNat
    powerPunchesLanded := if jabs0 < 0 then d.punchesLanded else sigLanded
    ringControlPct := round1 d.ringControlPct }

/-- The raw generated data before the ring-control post-pass: for each round
1..numRounds, one row for boxer A (opponent B) then one row for boxer B
(opponent A).  The draw stream is indexed by round number and an
is-first-boxer flag. -/
def rawGenData (a b : String) (numRounds : Nat) (draws : Nat → Bool → Draws) :
    List GenRow :=
  (List.range numRounds).flatMap
    (fun i => [genRow (i + 1) a b (draws (i + 1) true),
               genRow (i + 1) b a (draws (i + 1) false)])

/-- The row lookup df[(df.Round == r) & (df.Boxer == bx)].index[0] of
generate_data.py lines 54-58: the first row of the given round and boxer. -/
def findRow (df : List GenRow) (r : Nat) (bx : String) : Option GenRow :=
  (df.filter (fun row => row.round = r ∧ row.boxer = bx)).head?

/-- The in-place update df.loc[idx, col] = v of generate_data.py line 60:
overwrite Ring Control % on the first row matching the round and boxer. -/
def setRingFirst (r : Nat) (bx : String) (v : Rat) : List GenRow → List GenRow
  | [] => []
  | row :: rest =>
      if row.round = r ∧ row.boxer = bx
      then { row with ringControlPct := v } :: rest
      else row :: setRingFirst r bx v rest

/-- One iteration of the post-pass loop (generate_data.py lines 53-60): if
round r has a row for each named boxer, rewrite the ring control on the row
of boxer B to 100.0 minus the value of boxer A. -/
def fixRound (a b : String) (r : Nat) (df : List GenRow) : List GenRow :=
  match findRow df r a, findRow df r b with
  | some ra, some _ => setRingFirst r b (100 - ra.ringControlPct) df
  | _, _ => df

/-- The model of generate_boxing_data (generate_data.py lines 5-62): generate
the raw rows, then run the ring-control post-pass over rounds 1..numRounds. -/
def generate_boxing_data (a b : String) (numRounds : Nat)
    (draws : Nat → Bool → Draws) : List GenRow :=
  (List.range numRounds).foldl (fun df i => fixRound a b (i + 1) df)
    (rawGenData a b numRounds draws)

/-- Membership in the groupby keys is membership of the Boxer column. -/
theorem mem_boxerKeys {df : List RoundRecord} {bx : String} :
    bx ∈ boxerKeys df ↔ bx ∈ df.map RoundRecord.boxer := by
  unfold boxerKeys
  rw [(List.perm_insertionSort _ _).mem_iff, List.mem_dedup]

/-- Every row of the aggregate table is the aggregate of the corresponding
group, and its boxer occurs in the input. -/
theorem mem_aggregateTable {df : List RoundRecord} {row : BoxerAgg}
    (h : row ∈ aggregateTable df) :
    row = aggRow row.boxer (df.filter (fun r => r.boxer = row.boxer)) ∧
    row.boxer ∈ df.map RoundRecord.boxer := by
  rcases List.mem_map.mp h with ⟨bx, hbx, hrow⟩
  have hb : row.boxer = bx := by rw [← hrow]; rfl
  subst hb
  exact ⟨hrow.symm, mem_boxerKeys.mp hbx⟩

/-- Claim C3: predict_outcome yields a draw exactly when the two
total_sig_punches_landed values are equal, and otherwise names as winner the
competitor whose total_sig_punches_landed is strictly greater, with no other
field consulted. -/
theorem predict_outcome_single_criterion (sa sb : BoxerAgg) :
    (predict_outcome sa sb = Outcome.draw ↔
      sa.total_sig_punches_landed = sb.total_sig_punches_landed) ∧
    (sb.total_sig_punches_landed < sa.total_sig_punches_landed →
      predict_outcome sa sb = Outcome.winner sa.boxer sb.boxer) ∧
    (sa.total_sig_punches_landed < sb.total_sig_punches_landed →
      predict_outcome sa sb = Outcome.winner sb.boxer sa.boxer) := by
  simp only [predict_outcome, gt_iff_lt]
  split_ifs with h1 h2 <;>
    refine ⟨by simp; omega, fun hw => ?_, fun hw => ?_⟩ <;>
    first | rfl | omega

/-- Witness for claim C3 at concrete aggregates: 30 significant landed
against 20 makes the first boxer the winner. -/
theorem predict_outcome_single_criterion_witness :
    predict_outcome
      ⟨"Ali", 100, 40, 40, 50, 30, 60, 20, 10, 55⟩
      ⟨"Foreman", 90, 35, (389:Rat)/10, 45, 20, (444:Rat)/10, 12, 8, 45⟩ =
      Outcome.winner "Ali" "Foreman" :=
  (predict_outcome_single_criterion _ _).2.1 (by decide)

/-- Claim C9: swapping the two stats arguments of predict_outcome leaves the
announced outcome unchanged: the same competitor is named winner (now coming
from the other argument slot, so the argument roles swap) and a draw stays a
draw. -/
theorem predict_outcome_antisymm (sa sb : BoxerAgg) :
    predict_outcome sb sa = predict_outcome sa sb := by
  simp only [predict_outcome, gt_iff_lt]
  split_ifs <;> first | rfl | omega

/-- Claim C4: a requested competitor with no matching group gets the absent
value None, not a default-zero row, and the full aggregate table is still
returned. -/
theorem absent_competitor_absent_stats (df : List RoundRecord) (a b : String)
    (hb : b ∉ df.map RoundRecord.boxer) :
    (calculate_match_aggregates df a b).2.1 = none ∧
    (calculate_match_aggregates df a b).2.2 = aggregateTable df := by
  refine ⟨?_, rfl⟩
  have hnil : (aggregateTable df).filter (fun row => row.boxer = b) = [] := by
    apply List.filter_eq_nil_iff.mpr
    intro row hrow
    simp only [decide_eq_true_eq]
    intro hcontra
    exact hb (hcontra ▸ (mem_aggregateTable hrow).2)
  show ((aggregateTable df).filter (fun row => row.boxer = b)).head? = none
  rw [hnil]
  rfl

/-- Witness for claim C4: a one-record table for Ali returns None for the
absent boxer Foreman. -/
theorem absent_competitor_absent_stats_witness :
    (calculate_match_aggregates [⟨1, "Ali", 10, 5, 6, 3, 2, 1, 50⟩]
      "Ali" "Foreman").2.1 = none ∧
    (calculate_match_aggregates [⟨1, "Ali", 10, 5, 6, 3, 2, 1, 50⟩]
      "Ali" "Foreman").2.2 =
      aggregateTable [⟨1, "Ali", 10, 5, 6, 3, 2, 1, 50⟩] :=
  absent_competitor_absent_stats _ "Ali" "Foreman" (by decide)

/-- Claim C5: filtering by a round number that matches no record yields the
empty subset, and the round-by-round section short-circuits to the No data
warning on that subset instead of rendering statistics over it. -/
theorem empty_round_no_data (df : List RoundRecord) (r : Nat)
    (h : r ∉ df.map RoundRecord.round) :
    selectRounds df (some r) = [] ∧
    roundViewFor df (some r) = RoundView.noData r := by
  have hnil : df.filter (fun rec => rec.round = r) = [] := by
    apply List.filter_eq_nil_iff.mpr
    intro rec hrec
    simp only [decide_eq_true_eq]
    intro hc
    exact h (List.mem_map.mpr ⟨rec, hrec, hc⟩)
  refine ⟨hnil, ?_⟩
  simp [roundViewFor, hnil]

/-- Witness for claim C5: round 7 is absent from a round-1 record set. -/
theorem empty_round_no_data_witness :
    selectRounds [⟨1, "Ali", 10, 5, 6, 3, 2, 1, 50⟩] (some 7) = [] ∧
    roundViewFor [⟨1, "Ali", 10, 5, 6, 3, 2, 1, 50⟩] (some 7) =
      RoundView.noData 7 :=
  empty_round_no_data _ 7 (by decide)

/-- Modelled from the words of the spec: the derived-ratio formula
round(100 * total_landed / max(total_thrown, 1), 1), to be compared with the
computation embedded from the code. -/
def spec_accuracy (landed thrown : Nat) : Rat :=
  round1 (100 * (landed : Rat) / ((max thrown 1 : Nat) : Rat))

/-- The replace(0, 1) guard coincides with max(x, 1) on Nat totals. -/
theorem replaceZero_eq_max (n : Nat) : replaceZero n = max n 1 := by
  unfold replaceZero
  split_ifs with h <;> omega

/-- Sample records used by the concrete witnesses. -/
def sampleRec1 : RoundRecord := ⟨1, "Ali", 10, 5, 6, 3, 2, 1, 50⟩

/-- Second sample record used by the concrete witnesses. -/
def sampleRec2 : RoundRecord := ⟨2, "Ali", 12, 7, 8, 4, 3, 1, 60⟩

/-- Third sample record used by the concrete witnesses. -/
def sampleRec3 : RoundRecord := ⟨1, "Foreman", 8, 4, 5, 2, 1, 1, 50⟩

/-- Lower bound of round1 on nonnegative arguments. -/
theorem round1_nonneg {q : Rat} (hq : 0 ≤ q) : 0 ≤ round1 q := by
  unfold round1
  apply div_nonneg _ (by norm_num)
  have h : (0 : Int) ≤ round (10 * q) := by
    rw [round_eq]
    apply Int.floor_nonneg.mpr
    linarith
  exact_mod_cast h

/-- Upper bound of round1 on arguments at most 100. -/
theorem round1_le_100 {q : Rat} (hq : q ≤ 100) : round1 q ≤ 100 := by
  unfold round1
  rw [div_le_iff₀ (by norm_num : (0 : Rat) < 10)]
  have h : round (10 * q) ≤ 1000 := by
    rw [round_eq]
    have hh : 10 * q + 1 / 2 ≤ ((1000 : Int) : Rat) + 1 / 2 := by
      push_cast
      linarith
    calc ⌊10 * q + 1 / 2⌋ ≤ ⌊((1000 : Int) : Rat) + 1 / 2⌋ := Int.floor_le_floor hh
    _ = 1000 := by
        rw [add_comm, Int.floor_add_int]
        norm_num
  calc ((round (10 * q) : Int) : Rat) ≤ ((1000 : Int) : Rat) := by exact_mod_cast h
  _ = 100 * 10 := by norm_num

/-- The replace(0, 1) guard is positive, so the accuracy denominators are
never zero. -/
theorem replaceZero_pos (n : Nat) : 0 < replaceZero n := by
  unfold replaceZero
  split_ifs <;> omega

/-- The accuracy fields of an aggregate row match the spec-side guarded
formula. -/
theorem aggRow_accuracy_spec (bx : String) (g : List RoundRecord) :
    (aggRow bx g).punch_accuracy_pct =
      spec_accuracy (aggRow bx g).total_punches_landed
        (aggRow bx g).total_punches_thrown ∧
    (aggRow bx g).sig_punch_accuracy_pct =
      spec_accuracy (aggRow bx g).total_sig_punches_landed
        (aggRow bx g).total_sig_punches_thrown := by
  unfold spec_accuracy
  constructor <;>
  · show round1 _ = round1 _
    rw [replaceZero_eq_max, mul_comm]
    rfl

/-- A zero landed total forces accuracy zero. -/
theorem aggRow_accuracy_zero (bx : String) (g : List RoundRecord)
    (h0 : (aggRow bx g).total_punches_landed = 0) :
    (aggRow bx g).punch_accuracy_pct = 0 := by
  have hz : ((g.map RoundRecord.punchesLanded).sum : Rat) = 0 := by
    exact_mod_cast h0
  show round1 (((g.map RoundRecord.punchesLanded).sum : Rat) * 100 / _) = 0
  rw [hz]
  norm_num [round1]

/-- Claim C2: every aggregate row derives its accuracy percentages by the
guarded formula round(100 * landed / max(thrown, 1), 1); the denominator is
never zero, and a competitor with zero thrown (hence zero landed) punches
gets accuracy 0.0 rather than an error. -/
theorem accuracy_formula_and_guard (df : List RoundRecord) (a b : String)
    (row : BoxerAgg) (h : row ∈ (calculate_match_aggregates df a b).2.2) :
    row.punch_accuracy_pct =
      spec_accuracy row.total_punches_landed row.total_punches_thrown ∧
    row.sig_punch_accuracy_pct =
      spec_accuracy row.total_sig_punches_landed row.total_sig_punches_thrown ∧
    ((replaceZero row.total_punches_thrown : Nat) : Rat) ≠ 0 ∧
    (row.total_punches_thrown = 0 → row.total_punches_landed = 0 →
      row.punch_accuracy_pct = 0) := by
  obtain ⟨hrow, -⟩ := mem_aggregateTable (show row ∈ aggregateTable df from h)
  refine ⟨?_, ?_, ?_, ?_⟩
  · rw [hrow]
    exact (aggRow_accuracy_spec _ _).1
  · rw [hrow]
    exact (aggRow_accuracy_spec _ _).2
  · have hp := replaceZero_pos row.total_punches_thrown
    exact_mod_cast Nat.pos_iff_ne_zero.mp hp
  · intro _ hl0
    rw [hrow]
    apply aggRow_accuracy_zero
    rw [← hrow]
    exact hl0

/-- Witness for claim C2 at a concrete one-record table: the aggregate row
for Ali obeys the guarded formula. -/
theorem accuracy_formula_and_guard_witness :
    (aggRow "Ali" [sampleRec1]).punch_accuracy_pct =
      spec_accuracy (aggRow "Ali" [sampleRec1]).total_punches_landed
        (aggRow "Ali" [sampleRec1]).total_punches_thrown :=
  (accuracy_formula_and_guard [sampleRec1] "Ali" "Foreman"
    (aggRow "Ali" [sampleRec1]) (List.Mem.head _)).1

/-- Accuracy of an aggregate row lies in [0, 100] when its landed total is at
most its thrown total. -/
theorem aggRow_accuracy_bounds (bx : String) (g : List RoundRecord)
    (h : (g.map RoundRecord.punchesLanded).sum ≤
      (g.map RoundRecord.punchesThrown).sum) :
    0 ≤ (aggRow bx g).punch_accuracy_pct ∧
    (aggRow bx g).punch_accuracy_pct ≤ 100 := by
  show 0 ≤ round1 (((g.map RoundRecord.punchesLanded).sum : Rat) * 100 /
      ((replaceZero (g.map RoundRecord.punchesThrown).sum : Nat) : Rat)) ∧ _
  set tl := (g.map RoundRecord.punchesLanded).sum with htl
  set tt := (g.map RoundRecord.punchesThrown).sum with htt
  have hpos : (0 : Rat) < ((replaceZero tt : Nat) : Rat) := by
    exact_mod_cast replaceZero_pos tt
  have hle : (tl : Rat) ≤ ((replaceZero tt : Nat) : Rat) := by
    have hn : tl ≤ replaceZero tt := by
      refine le_trans h ?_
      unfold replaceZero
      split_ifs <;> omega
    exact_mod_cast hn
  have h0 : (0 : Rat) ≤ (tl : Rat) * 100 / ((replaceZero tt : Nat) : Rat) :=
    div_nonneg (by positivity) hpos.le
  have h100 : (tl : Rat) * 100 / ((replaceZero tt : Nat) : Rat) ≤ 100 := by
    rw [div_le_iff₀ hpos]
    nlinarith
  exact ⟨round1_nonneg h0, round1_le_100 h100⟩

/-- Claim C7: when every record lands at most what it throws, each aggregate
row has total landed at most total thrown and its accuracy percentage lies
in [0, 100]. -/
theorem totals_and_accuracy_in_range (df : List RoundRecord) (a b : String)
    (hinv : ∀ rec ∈ df, rec.punchesLanded ≤ rec.punchesThrown) :
    ∀ row ∈ (calculate_match_aggregates df a b).2.2,
      row.total_punches_landed ≤ row.total_punches_thrown ∧
      0 ≤ row.punch_accuracy_pct ∧ row.punch_accuracy_pct ≤ 100 := by
  intro row h
  obtain ⟨hrow, -⟩ := mem_aggregateTable (show row ∈ aggregateTable df from h)
  have hsum :
      ((df.filter (fun r => r.boxer = row.boxer)).map RoundRecord.punchesLanded).sum ≤
      ((df.filter (fun r => r.boxer = row.boxer)).map RoundRecord.punchesThrown).sum := by
    apply List.sum_le_sum
    intro rec hrec
    exact hinv rec (List.mem_of_mem_filter hrec)
  rw [hrow]
  exact ⟨hsum, (aggRow_accuracy_bounds _ _ hsum).1,
    (aggRow_accuracy_bounds _ _ hsum).2⟩

/-- Witness for claim C7 on a concrete one-record table respecting the
per-record invariant, evaluated at the row of Ali. -/
theorem totals_and_accuracy_in_range_witness :
    (aggRow "Ali" [sampleRec1]).total_punches_landed ≤
      (aggRow "Ali" [sampleRec1]).total_punches_thrown ∧
    0 ≤ (aggRow "Ali" [sampleRec1]).punch_accuracy_pct ∧
    (aggRow "Ali" [sampleRec1]).punch_accuracy_pct ≤ 100 :=
  totals_and_accuracy_in_range [sampleRec1] "Ali" "Foreman" (by decide)
    (aggRow "Ali" [sampleRec1]) (List.Mem.head _)

/-- Claim C1: for a non-empty record set, the aggregate table contains, for
each competitor present, exactly one row, whose totals are the
component-wise sums over that competitor group and whose avg_ring_control is
the arithmetic mean of ring control over exactly the records of the group. -/
theorem aggregate_partitions_groups (df : List RoundRecord) (a b : String)
    (_hne : df ≠ []) (bx : String) (hbx : bx ∈ df.map RoundRecord.boxer) :
    ∃ row ∈ (calculate_match_aggregates df a b).2.2,
      row.boxer = bx ∧
      row.total_punches_thrown =
        ((df.filter (fun r => r.boxer = bx)).map RoundRecord.punchesThrown).sum ∧
      row.total_punches_landed =
        ((df.filter (fun r => r.boxer = bx)).map RoundRecord.punchesLanded).sum ∧
      row.total_sig_punches_thrown =
        ((df.filter (fun r => r.boxer = bx)).map RoundRecord.sigPunchesThrown).sum ∧
      row.total_sig_punches_landed =
        ((df.filter (fun r => r.boxer = bx)).map RoundRecord.sigPunchesLanded).sum ∧
      row.total_head_punches_landed =
        ((df.filter (fun r => r.boxer = bx)).map RoundRecord.headPunchesLanded).sum ∧
      row.total_body_punches_landed =
        ((df.filter (fun r => r.boxer = bx)).map RoundRecord.bodyPunchesLanded).sum ∧
      row.avg_ring_control =
        ((df.filter (fun r => r.boxer = bx)).map RoundRecord.ringControlPct).sum /
          ((df.filter (fun r => r.boxer = bx)).length : Rat) ∧
      (∀ row2 ∈ (calculate_match_aggregates df a b).2.2,
        row2.boxer = bx → row2 = row) := by
  refine ⟨aggRow bx (df.filter (fun r => r.boxer = bx)), ?_,
    rfl, rfl, rfl, rfl, rfl, rfl, rfl, rfl, ?_⟩
  · show aggRow bx (df.filter (fun r => r.boxer = bx)) ∈ aggregateTable df
    exact List.mem_map.mpr ⟨bx, mem_boxerKeys.mpr hbx, rfl⟩
  · intro row2 h2 hb2
    obtain ⟨he, -⟩ := mem_aggregateTable (show row2 ∈ aggregateTable df from h2)
    rw [he, hb2]

/-- Witness for claim C1 on a concrete two-record table: the group of Ali. -/
theorem aggregate_partitions_groups_witness :
    ∃ row ∈ (calculate_match_aggregates [sampleRec1, sampleRec3]
        "Ali" "Foreman").2.2,
      row.boxer = "Ali" ∧
      row.total_punches_thrown =
        (([sampleRec1, sampleRec3].filter (fun r => r.boxer = "Ali")).map
          RoundRecord.punchesThrown).sum ∧
      row.total_punches_landed =
        (([sampleRec1, sampleRec3].filter (fun r => r.boxer = "Ali")).map
          RoundRecord.punchesLanded).sum ∧
      row.total_sig_punches_thrown =
        (([sampleRec1, sampleRec3].filter (fun r => r.boxer = "Ali")).map
          RoundRecord.sigPunchesThrown).sum ∧
      row.total_sig_punches_landed =
        (([sampleRec1, sampleRec3].filter (fun r => r.boxer = "Ali")).map
          RoundRecord.sigPunchesLanded).sum ∧
      row.total_head_punches_landed =
        (([sampleRec1, sampleRec3].filter (fun r => r.boxer = "Ali")).map
          RoundRecord.headPunchesLanded).sum ∧
      row.total_body_punches_landed =
        (([sampleRec1, sampleRec3].filter (fun r => r.boxer = "Ali")).map
          RoundRecord.bodyPunchesLanded).sum ∧
      row.avg_ring_control =
        (([sampleRec1, sampleRec3].filter (fun r => r.boxer = "Ali")).map
          RoundRecord.ringControlPct).sum /
          (([sampleRec1, sampleRec3].filter (fun r => r.boxer = "Ali")).length : Rat) ∧
      (∀ row2 ∈ (calculate_match_aggregates [sampleRec1, sampleRec3]
          "Ali" "Foreman").2.2, row2.boxer = "Ali" → row2 = row) :=
  aggregate_partitions_groups [sampleRec1, sampleRec3] "Ali" "Foreman"
    (by decide) "Ali" (by decide)

/-- Aggregate rows are invariant under permutation of the group. -/
theorem aggRow_perm_congr (bx : String) {g g2 : List RoundRecord}
    (h : g.Perm g2) : aggRow bx g = aggRow bx g2 := by
  simp only [aggRow]
  rw [(h.map RoundRecord.punchesThrown).sum_eq,
    (h.map RoundRecord.punchesLanded).sum_eq,
    (h.map RoundRecord.sigPunchesThrown).sum_eq,
    (h.map RoundRecord.sigPunchesLanded).sum_eq,
    (h.map RoundRecord.headPunchesLanded).sum_eq,
    (h.map RoundRecord.bodyPunchesLanded).sum_eq,
    (h.map RoundRecord.ringControlPct).sum_eq,
    h.length_eq]

/-- The sorted groupby keys agree between permuted inputs. -/
theorem boxerKeys_perm_congr {df df2 : List RoundRecord} (h : df.Perm df2) :
    boxerKeys df = boxerKeys df2 := by
  apply List.eq_of_perm_of_sorted
    ((List.perm_insertionSort _ _).trans
      (((h.map RoundRecord.boxer).dedup).trans
        (List.perm_insertionSort _ _).symm))
    (List.sorted_insertionSort _ _) (List.sorted_insertionSort _ _)

/-- Claim C8: the aggregation is order-insensitive: permuting the input
record sequence yields the identical pair of stats rows and the identical
aggregate table. -/
theorem aggregates_order_insensitive (df df2 : List RoundRecord)
    (a b : String) (h : df.Perm df2) :
    calculate_match_aggregates df a b = calculate_match_aggregates df2 a b := by
  have htab : aggregateTable df = aggregateTable df2 := by
    unfold aggregateTable
    rw [boxerKeys_perm_congr h]
    apply List.map_congr_left
    intro bx _
    exact aggRow_perm_congr bx (h.filter _)
  unfold calculate_match_aggregates
  rw [htab]

/-- Witness for claim C8: swapping two concrete records changes nothing. -/
theorem aggregates_order_insensitive_witness :
    calculate_match_aggregates [sampleRec1, sampleRec3] "Ali" "Foreman" =
    calculate_match_aggregates [sampleRec3, sampleRec1] "Ali" "Foreman" :=
  aggregates_order_insensitive [sampleRec1, sampleRec3]
    [sampleRec3, sampleRec1] "Ali" "Foreman" (by decide)

/-- Structure of the optional-column fill: it appends some list of new
columns and pads every row with that many zero cells, and every requested
column ends up present. -/
theorem fillZeroCols_spec (cs : List String) : ∀ t : Csv,
    ∃ ext : List String,
      (fillZeroCols cs t).columns = t.columns ++ ext ∧
      (fillZeroCols cs t).rows =
        t.rows.map (fun row => row ++ List.replicate ext.length (Cell.num 0)) ∧
      ∀ c ∈ cs, c ∈ t.columns ++ ext := by
  induction cs with
  | nil =>
      intro t
      refine ⟨[], by simp [fillZeroCols], ?_, by simp⟩
      simp [fillZeroCols]
  | cons c cs ih =>
      intro t
      by_cases hc : c ∈ t.columns
      · obtain ⟨ext, h1, h2, h3⟩ := ih t
        have hstep : fillZeroCols (c :: cs) t = fillZeroCols cs t := by
          simp [fillZeroCols, hc]
        refine ⟨ext, by rw [hstep]; exact h1, by rw [hstep]; exact h2, ?_⟩
        intro d hd
        rcases List.mem_cons.mp hd with rfl | hd2
        · exact List.mem_append.mpr (Or.inl hc)
        · exact h3 d hd2
      · obtain ⟨ext, h1, h2, h3⟩ :=
          ih ⟨t.columns ++ [c], t.rows.map (fun row => row ++ [Cell.num 0])⟩
        have hstep : fillZeroCols (c :: cs) t =
            fillZeroCols cs
              ⟨t.columns ++ [c], t.rows.map (fun row => row ++ [Cell.num 0])⟩ := by
          simp [fillZeroCols, hc]
        refine ⟨c :: ext, ?_, ?_, ?_⟩
        · rw [hstep, h1]
          simp
        · rw [hstep, h2]
          rw [List.map_map]
          apply List.map_congr_left
          intro row _
          simp [List.replicate_succ]
        · intro d hd
          rcases List.mem_cons.mp hd with rfl | hd2
          · simp
          · have hd3 := h3 d hd2
            simp only [List.append_assoc, List.singleton_append] at hd3
            exact hd3

/-- Claim C6: a table missing a required column is rejected with the
descriptive message naming every required (hence every missing) column and
yields no records, while missing optional columns cause no failure and are
appended with value zero on every row. -/
theorem load_data_column_validation (t : Csv)
    (hwf : ∀ row ∈ t.rows, row.length = t.columns.length) :
    ((∃ c ∈ required_cols, c ∉ t.columns) →
      load_data t = Except.error loadErrorMsg ∧
      ∀ c ∈ required_cols, msgHas loadErrorMsg c = true) ∧
    ((∀ c ∈ required_cols, c ∈ t.columns) →
      ∃ out, load_data t = Except.ok out ∧
        ∀ c ∈ optional_cols, c ∉ t.columns →
          ∃ i : Nat, out.columns[i]? = some c ∧
            ∀ row ∈ out.rows, row[i]? = some (Cell.num 0)) := by
  constructor
  · rintro ⟨c, hc, hnc⟩
    constructor
    · unfold load_data
      rw [if_neg]
      intro hall
      exact hnc (by simpa using List.all_eq_true.mp hall c hc)
    · set_option maxRecDepth 100000 in decide
  · intro hall
    refine ⟨fillZeroCols optional_cols t, ?_, ?_⟩
    · unfold load_data
      rw [if_pos]
      apply List.all_eq_true.mpr
      intro c hc
      simpa using hall c hc
    · intro c hc hnc
      obtain ⟨ext, h1, h2, h3⟩ := fillZeroCols_spec optional_cols t
      have hcext : c ∈ ext := by
        rcases List.mem_append.mp (h3 c hc) with h | h
        · exact absurd h hnc
        · exact h
      obtain ⟨j, hjlt, hj⟩ := List.getElem_of_mem hcext
      refine ⟨t.columns.length + j, ?_, ?_⟩
      · rw [h1, List.getElem?_append_right (by omega)]
        have hidx : t.columns.length + j - t.columns.length = j := by omega
        rw [hidx, List.getElem?_eq_getElem hjlt, hj]
      · intro row hrow
        rw [h2] at hrow
        obtain ⟨row0, hrow0, rfl⟩ := List.mem_map.mp hrow
        have hlen : row0.length = t.columns.length := hwf row0 hrow0
        rw [List.getElem?_append_right (by omega)]
        rw [hlen]
        have hidx : t.columns.length + j - t.columns.length = j := by omega
        rw [hidx]
        simp [List.getElem?_replicate, hjlt]

/-- Witness for claim C6: a table whose only column is Boxer is rejected
with the descriptive message. -/
theorem load_data_column_validation_witness :
    load_data ⟨["Boxer"], [[Cell.str "Ali"]]⟩ = Except.error loadErrorMsg :=
  ((load_data_column_validation ⟨["Boxer"], [[Cell.str "Ali"]]⟩ (by decide)).1
    ⟨"Round", by decide, by decide⟩).1

/-- Closed form of one generated round after the post-pass: the A row
unchanged, the B row with ring control rewritten to 100 minus the A value. -/
def fixedPair (a b : String) (draws : Nat → Bool → Draws) (i : Nat) :
    List GenRow :=
  let ra := genRow (i + 1) a b (draws (i + 1) true)
  let rb := genRow (i + 1) b a (draws (i + 1) false)
  [ra, { rb with ringControlPct := 100 - ra.ringControlPct }]

/-- Closed form of the whole generator output after the post-pass. -/
def fixedGenData (a b : String) (n : Nat) (draws : Nat → Bool → Draws) :
    List GenRow :=
  (List.range n).flatMap (fixedPair a b draws)

/-- Round numbers of the closed-form output lie in 1..n. -/
theorem fixedGenData_round_le (a b : String) (n : Nat)
    (draws : Nat → Bool → Draws) :
    ∀ row ∈ fixedGenData a b n draws, 1 ≤ row.round ∧ row.round ≤ n := by
  intro row hrow
  obtain ⟨i, hi, hrow2⟩ := List.mem_flatMap.mp hrow
  have hin : i < n := List.mem_range.mp hi
  have hround : row.round = i + 1 := by
    simp only [fixedPair, List.mem_cons, List.not_mem_nil, or_false] at hrow2
    rcases hrow2 with rfl | rfl <;> rfl
  omega

/-- Finding a row in an appended list skips a left part with no match. -/
theorem findRow_append_of_none (l1 l2 : List GenRow) (r : Nat) (bx : String)
    (h : ∀ row ∈ l1, ¬(row.round = r ∧ row.boxer = bx)) :
    findRow (l1 ++ l2) r bx = findRow l2 r bx := by
  unfold findRow
  rw [List.filter_append, List.filter_eq_nil_iff.mpr ?_, List.nil_append]
  intro row hrow
  simpa using h row hrow

/-- Finding a row in an appended list returns an existing left match. -/
theorem findRow_append_of_some (l1 l2 : List GenRow) (r : Nat) (bx : String)
    (x : GenRow) (h : findRow l1 r bx = some x) :
    findRow (l1 ++ l2) r bx = some x := by
  unfold findRow at h ⊢
  rw [List.filter_append]
  cases hf : l1.filter (fun row => decide (row.round = r ∧ row.boxer = bx)) with
  | nil => rw [hf] at h; simp at h
  | cons y ys =>
      rw [hf] at h
      simp only [List.head?_cons, Option.some.injEq] at h
      subst h
      rfl

/-- A matching head is found at once. -/
theorem findRow_cons_match (row : GenRow) (rest : List GenRow) (r : Nat)
    (bx : String) (h : row.round = r ∧ row.boxer = bx) :
    findRow (row :: rest) r bx = some row := by
  unfold findRow
  rw [List.filter_cons]
  simp [h]

/-- A non-matching head is skipped. -/
theorem findRow_cons_no_match (row : GenRow) (rest : List GenRow) (r : Nat)
    (bx : String) (h : ¬(row.round = r ∧ row.boxer = bx)) :
    findRow (row :: rest) r bx = findRow rest r bx := by
  unfold findRow
  rw [List.filter_cons]
  simp [h]

/-- The ring update leaves a list with no matching row unchanged. -/
theorem setRingFirst_no_match (r : Nat) (bx : String) (v : Rat) :
    ∀ l : List GenRow, (∀ row ∈ l, ¬(row.round = r ∧ row.boxer = bx)) →
      setRingFirst r bx v l = l := by
  intro l
  induction l with
  | nil => intro _; rfl
  | cons row rest ih =>
      intro h
      simp only [setRingFirst]
      rw [if_neg (h row (List.mem_cons_self _ _)),
        ih (fun q hq => h q (List.mem_cons_of_mem _ hq))]

/-- The ring update distributes over an append whose right part has no
matching row. -/
theorem setRingFirst_append_right_clean (r : Nat) (bx : String) (v : Rat)
    (l1 l2 : List GenRow)
    (h2 : ∀ row ∈ l2, ¬(row.round = r ∧ row.boxer = bx)) :
    setRingFirst r bx v (l1 ++ l2) = setRingFirst r bx v l1 ++ l2 := by
  induction l1 with
  | nil =>
      simp only [List.nil_append, setRingFirst]
      exact setRingFirst_no_match r bx v l2 h2
  | cons row rest ih =>
      by_cases hm : row.round = r ∧ row.boxer = bx
      · simp [setRingFirst, if_pos hm]
      · simp only [List.cons_append, setRingFirst, if_neg hm, List.append_eq]
        rw [ih]

/-- The ring update passes over an append whose left part has no matching
row. -/
theorem setRingFirst_append_left_clean (r : Nat) (bx : String) (v : Rat)
    (l1 l2 : List GenRow)
    (h1 : ∀ row ∈ l1, ¬(row.round = r ∧ row.boxer = bx)) :
    setRingFirst r bx v (l1 ++ l2) = l1 ++ setRingFirst r bx v l2 := by
  induction l1 with
  | nil => rfl
  | cons row rest ih =>
      simp only [List.cons_append, setRingFirst,
        if_neg (h1 row (List.mem_cons_self _ _)), List.append_eq]
      rw [ih (fun q hq => h1 q (List.mem_cons_of_mem _ hq))]

/-- The per-round fix ignores an appended tail of rows from other rounds. -/
theorem fixRound_append (a b : String) (r : Nat) (df ext : List GenRow)
    (hext : ∀ row ∈ ext, row.round ≠ r) :
    fixRound a b r (df ++ ext) = fixRound a b r df ++ ext := by
  have hclean : ∀ bx : String, ∀ row ∈ ext,
      ¬(row.round = r ∧ row.boxer = bx) :=
    fun bx row hrow hc => hext row hrow hc.1
  have hnila : ext.filter (fun row => decide (row.round = r ∧ row.boxer = a)) = [] := by
    apply List.filter_eq_nil_iff.mpr
    intro row hrow
    simpa using hclean a row hrow
  have hnilb : ext.filter (fun row => decide (row.round = r ∧ row.boxer = b)) = [] := by
    apply List.filter_eq_nil_iff.mpr
    intro row hrow
    simpa using hclean b row hrow
  have hfa : findRow (df ++ ext) r a = findRow df r a := by
    unfold findRow
    rw [List.filter_append, hnila, List.append_nil]
  have hfb : findRow (df ++ ext) r b = findRow df r b := by
    unfold findRow
    rw [List.filter_append, hnilb, List.append_nil]
  unfold fixRound
  rw [hfa, hfb]
  cases findRow df r a with
  | none => rfl
  | some ra =>
      cases findRow df r b with
      | none => rfl
      | some rb =>
          exact setRingFirst_append_right_clean r b _ df ext (hclean b)

/-- The post-pass over a set of rounds ignores an appended tail of rows from
rounds outside that set. -/
theorem foldl_fixRound_append (a b : String) (ext : List GenRow) :
    ∀ (l : List Nat) (df : List GenRow),
      (∀ row ∈ ext, ∀ i ∈ l, row.round ≠ i + 1) →
      l.foldl (fun d i => fixRound a b (i + 1) d) (df ++ ext) =
        l.foldl (fun d i => fixRound a b (i + 1) d) df ++ ext := by
  intro l
  induction l with
  | nil => intro df _; rfl
  | cons i l ih =>
      intro df h
      simp only [List.foldl_cons]
      rw [fixRound_append a b (i + 1) df ext
        (fun row hrow => h row hrow i (List.mem_cons_self _ _))]
      exact ih _ (fun row hrow j hj => h row hrow j (List.mem_cons_of_mem _ hj))

/-- The generator equals its closed form: for distinct boxer names, the
post-pass rewrites exactly the B row of each round. -/
theorem generate_eq_fixedGenData (a b : String) (hab : a ≠ b)
    (draws : Nat → Bool → Draws) : ∀ n : Nat,
    generate_boxing_data a b n draws = fixedGenData a b n draws := by
  intro n
  induction n with
  | zero => rfl
  | succ n ih =>
      have hraw : rawGenData a b (n + 1) draws = rawGenData a b n draws ++
          [genRow (n + 1) a b (draws (n + 1) true),
           genRow (n + 1) b a (draws (n + 1) false)] := by
        unfold rawGenData
        rw [List.range_succ, List.flatMap_append]
        simp
      have hfold : generate_boxing_data a b (n + 1) draws =
          fixRound a b (n + 1)
            ((List.range n).foldl (fun d i => fixRound a b (i + 1) d)
              (rawGenData a b (n + 1) draws)) := by
        unfold generate_boxing_data
        rw [List.range_succ, List.foldl_append]
        rfl
      rw [hfold, hraw, foldl_fixRound_append a b _ (List.range n)
        (rawGenData a b n draws) ?_]
      · have hgen : (List.range n).foldl (fun d i => fixRound a b (i + 1) d)
            (rawGenData a b n draws) = fixedGenData a b n draws := ih
        rw [hgen]
        have hno : ∀ row ∈ fixedGenData a b n draws, row.round ≠ n + 1 := by
          intro row hrow
          have := (fixedGenData_round_le a b n draws row hrow).2
          omega
        have hfa : findRow (fixedGenData a b n draws ++
            [genRow (n + 1) a b (draws (n + 1) true),
             genRow (n + 1) b a (draws (n + 1) false)]) (n + 1) a =
            some (genRow (n + 1) a b (draws (n + 1) true)) := by
          rw [findRow_append_of_none _ _ _ _
            (fun row hrow hc => hno row hrow hc.1)]
          exact findRow_cons_match _ _ _ _ ⟨rfl, rfl⟩
        have hfb : findRow (fixedGenData a b n draws ++
            [genRow (n + 1) a b (draws (n + 1) true),
             genRow (n + 1) b a (draws (n + 1) false)]) (n + 1) b =
            some (genRow (n + 1) b a (draws (n + 1) false)) := by
          rw [findRow_append_of_none _ _ _ _
            (fun row hrow hc => hno row hrow hc.1)]
          rw [findRow_cons_no_match _ _ _ _ (fun hc => hab hc.2)]
          exact findRow_cons_match _ _ _ _ ⟨rfl, rfl⟩
        have hfix : fixRound a b (n + 1)
            (fixedGenData a b n draws ++
              [genRow (n + 1) a b (draws (n + 1) true),
               genRow (n + 1) b a (draws (n + 1) false)]) =
            setRingFirst (n + 1) b
              (100 - (genRow (n + 1) a b (draws (n + 1) true)).ringControlPct)
              (fixedGenData a b n draws ++
                [genRow (n + 1) a b (draws (n + 1) true),
                 genRow (n + 1) b a (draws (n + 1) false)]) := by
          unfold fixRound
          rw [hfa, hfb]
        rw [hfix]
        rw [setRingFirst_append_left_clean _ _ _ _ _
          (fun row hrow hc => hno row hrow hc.1)]
        have hpairfix : setRingFirst (n + 1) b
            (100 - (genRow (n + 1) a b (draws (n + 1) true)).ringControlPct)
            [genRow (n + 1) a b (draws (n + 1) true),
             genRow (n + 1) b a (draws (n + 1) false)] =
            fixedPair a b draws n := by
          unfold setRingFirst
          rw [if_neg (fun hc => hab hc.2)]
          unfold setRingFirst
          rw [if_pos ⟨rfl, rfl⟩]
          rfl
        rw [hpairfix]
        show fixedGenData a b n draws ++ fixedPair a b draws n =
          fixedGenData a b (n + 1) draws
        unfold fixedGenData
        rw [List.range_succ, List.flatMap_append]
        simp
      · intro row hrow i hi
        have hin : i < n := List.mem_range.mp hi
        have : row.round = n + 1 := by
          simp only [List.mem_cons, List.not_mem_nil, or_false] at hrow
          rcases hrow with rfl | rfl <;> rfl
        omega

/-- Location of the two rows of round r in the closed-form output. -/
theorem findRow_fixedGenData (a b : String) (hab : a ≠ b)
    (draws : Nat → Bool → Draws) : ∀ n r : Nat, 1 ≤ r → r ≤ n →
    findRow (fixedGenData a b n draws) r a =
      some (genRow r a b (draws r true)) ∧
    findRow (fixedGenData a b n draws) r b =
      some { genRow r b a (draws r false) with
             ringControlPct :=
               100 - (genRow r a b (draws r true)).ringControlPct } := by
  intro n
  induction n with
  | zero => intro r h1 h2; omega
  | succ n ih =>
      intro r h1 h2
      have hsplit : fixedGenData a b (n + 1) draws =
          fixedGenData a b n draws ++ fixedPair a b draws n := by
        unfold fixedGenData
        rw [List.range_succ, List.flatMap_append]
        simp
      by_cases hr : r ≤ n
      · obtain ⟨hfa, hfb⟩ := ih r h1 hr
        rw [hsplit]
        exact ⟨findRow_append_of_some _ _ _ _ _ hfa,
          findRow_append_of_some _ _ _ _ _ hfb⟩
      · have hrn : r = n + 1 := by omega
        subst hrn
        rw [hsplit]
        have hno : ∀ row ∈ fixedGenData a b n draws,
            ¬(row.round = n + 1 ∧ row.boxer = a) := by
          intro row hrow hc
          exact absurd hc.1 (by
            have := (fixedGenData_round_le a b n draws row hrow).2
            omega)
        have hnob : ∀ row ∈ fixedGenData a b n draws,
            ¬(row.round = n + 1 ∧ row.boxer = b) := by
          intro row hrow hc
          exact absurd hc.1 (by
            have := (fixedGenData_round_le a b n draws row hrow).2
            omega)
        rw [findRow_append_of_none _ _ _ _ hno,
          findRow_append_of_none _ _ _ _ hnob]
        constructor
        · exact findRow_cons_match _ _ _ _ ⟨rfl, rfl⟩
        · rw [show fixedPair a b draws n =
              [genRow (n + 1) a b (draws (n + 1) true),
               { genRow (n + 1) b a (draws (n + 1) false) with
                 ringControlPct := 100 -
                   (genRow (n + 1) a b (draws (n + 1) true)).ringControlPct }]
            from rfl]
          rw [findRow_cons_no_match _ _ _ _ (fun hc => hab hc.2)]
          exact findRow_cons_match _ _ _ _ ⟨rfl, rfl⟩

/-- Claim C10: for any two distinct boxer names and positive round count,
every round of the generator output has its two ring-control values summing
to exactly 100, because the post-pass rewrites the B value to 100 minus the
A value. -/
theorem ring_control_sums_to_100 (a b : String) (hab : a ≠ b) (n : Nat)
    (_hn : 1 ≤ n) (draws : Nat → Bool → Draws) (r : Nat)
    (h1 : 1 ≤ r) (h2 : r ≤ n) :
    ∃ ra rb : GenRow,
      findRow (generate_boxing_data a b n draws) r a = some ra ∧
      findRow (generate_boxing_data a b n draws) r b = some rb ∧
      ra.ringControlPct + rb.ringControlPct = 100 := by
  obtain ⟨hfa, hfb⟩ := findRow_fixedGenData a b hab draws n r h1 h2
  refine ⟨genRow r a b (draws r true),
    { genRow r b a (draws r false) with
      ringControlPct := 100 - (genRow r a b (draws r true)).ringControlPct },
    ?_, ?_, ?_⟩
  · rw [generate_eq_fixedGenData a b hab draws n]
    exact hfa
  · rw [generate_eq_fixedGenData a b hab draws n]
    exact hfb
  · show (genRow r a b (draws r true)).ringControlPct +
      (100 - (genRow r a b (draws r true)).ringControlPct) = 100
    ring

/-- Witness for claim C10 at one round with concrete draws. -/
theorem ring_control_sums_to_100_witness :
    ∃ ra rb : GenRow,
      findRow (generate_boxing_data "A" "B" 1
        (fun _ _ => ⟨50, 20, 30, 15, 8, 40⟩)) 1 "A" = some ra ∧
      findRow (generate_boxing_data "A" "B" 1
        (fun _ _ => ⟨50, 20, 30, 15, 8, 40⟩)) 1 "B" = some rb ∧
      ra.ringControlPct + rb.ringControlPct = 100 :=
  ring_control_sums_to_100 "A" "B" (by decide) 1 (by decide)
    (fun _ _ => ⟨50, 20, 30, 15, 8, 40⟩) 1 (by decide) (by decide)
